import Mathlib

/-!
Verification of the metadata aggregation core of pyFF (src/pyff/samlmd.py)
against its natural-language specification.

Shallow embedding conventions:
- An EntityDescriptor element is modelled as `Entity`: its entityID attribute
  (optional string, as lxml get returns None when absent), its ID attribute
  (stripped by the pipeline), and an opaque payload distinguishing records.
- A parsed document root is `SamlDoc`: either a single EntityDescriptor root,
  an EntitiesDescriptor root with EntityDescriptor children (aggregates are
  flat in this model), or a root with an unrecognized tag.
- Clark-notation tags such as the md namespace EntityDescriptor are modelled
  as plain strings.
- Python datetimes are modelled as Nat microseconds; timedeltas as Int
  microseconds. replace with microsecond zero is truncation to whole seconds.
- Python dicts are modelled as insertion-ordered association lists where
  assignment to an existing key replaces the value in place (`dictSet`).
- Functions from pyff.utils (parse_xml, check_signature, validate_document,
  schema, iso2datetime, xml_error) are not under src; they are abstracted as
  parameters, except duration2timedelta which is modelled from the spec.
- Exceptions are modelled with `Except Err`.
-/

/-- One EntityDescriptor record. -/
structure Entity where
  entityID : Option String
  idAttr : Option String
  payload : Nat
deriving DecidableEq, Repr

/-- Attributes carried by a document root (EntityDescriptor or
EntitiesDescriptor): Name, cacheDuration, validUntil. -/
structure EDAttrs where
  nameAttr : Option String
  cacheDuration : Option String
  validUntil : Option String
deriving DecidableEq, Repr

/-- A parsed SAML metadata document root. -/
inductive SamlDoc where
  | entity (attrs : EDAttrs) (e : Entity)
  | entities (attrs : EDAttrs) (children : List Entity)
  | other
deriving DecidableEq, Repr

/-- Exceptions raised by the core. -/
inductive Err where
  | documentInvalid (msg : String)
  | metadataException (msg : String)
  | otherError (msg : String)
deriving DecidableEq, Repr

/-- The process configuration consumed by the expiration calculators. -/
structure Config where
  default_cache_duration : String
  respect_cache_duration : Bool
deriving DecidableEq, Repr

/-- Root attribute accessor: some for the two recognized root tags, none for
an unrecognized root (mirrors the relt.tag membership test). -/
def SamlDoc.rootAttrs : SamlDoc → Option EDAttrs
  | .entity a _ => some a
  | .entities a _ => some a
  | .other => none

/-- Python dict lookup on an association list model. -/
def dictGet {α β : Type} [DecidableEq α] (m : List (α × β)) (k : α) : Option β :=
  (m.find? (fun p => decide (p.1 = k))).map Prod.snd

/-- Python dict assignment on an association list model: replace the value at
an existing key in place, otherwise append the new binding. -/
def dictSet {α β : Type} [DecidableEq α] (m : List (α × β)) (k : α) (v : β) :
    List (α × β) :=
  if m.any (fun p => decide (p.1 = k)) then
    m.map (fun p => if p.1 = k then (k, v) else p)
  else m ++ [(k, v)]

/-- EntitySet (samlmd.py lines 18-41): the backing dict maps the entityID of
a record to the record. -/
def EntitySet := List (Option String × Entity)
deriving DecidableEq, Repr

/-- EntitySet.add (line 25-26): the dict assignment on the entityID key. -/
def EntitySet.add (s : EntitySet) (value : Entity) : EntitySet :=
  dictSet s value.entityID value

/-- EntitySet.discard (lines 28-31). -/
def EntitySet.discard (s : EntitySet) (value : Entity) : EntitySet :=
  s.filter (fun p => decide (p.1 ≠ value.entityID))

/-- EntitySet membership (lines 40-41). -/
def EntitySet.containsEnt (s : EntitySet) (item : Entity) : Bool :=
  s.any (fun p => decide (p.1 = item.entityID))

/-- Truncation of a microsecond timestamp to whole-second granularity
(datetime.replace with microsecond zero). -/
def truncSec (x : Nat) : Nat := x / 1000000 * 1000000

/-- metadata_expiration (samlmd.py lines 160-177). `iso2dt` abstracts
pyff.utils.iso2datetime, `d2t` abstracts pyff.utils.duration2timedelta, `now`
is datetime.utcnow in microseconds. Returns a timedelta in microseconds. -/
def metadata_expiration (iso2dt : String → Nat) (d2t : String → Option Int)
    (cfg : Config) (now : Nat) (t : SamlDoc) : Option Int :=
  match t.rootAttrs with
  | none => none
  | some a =>
    match a.validUntil with
    | some vus =>
      some ((truncSec (iso2dt vus) : Int) - (truncSec now : Int))
    | none =>
      if cfg.respect_cache_duration then
        let cd := a.cacheDuration.getD cfg.default_cache_duration
        let cd := if cd = "" then cfg.default_cache_duration else cd
        d2t cd
      else none

/-- expiration (samlmd.py lines 703-718): the structurally similar second
calculator, which lacks the empty-string fallback on cacheDuration. -/
def expiration (iso2dt : String → Nat) (d2t : String → Option Int)
    (cfg : Config) (now : Nat) (t : SamlDoc) : Option Int :=
  match t.rootAttrs with
  | none => none
  | some a =>
    match a.validUntil with
    | some vus =>
      some ((truncSec (iso2dt vus) : Int) - (truncSec now : Int))
    | none =>
      if cfg.respect_cache_duration then
        let cd := a.cacheDuration.getD cfg.default_cache_duration
        d2t cd
      else none

/-- Modelled from the spec: pyff.utils.duration2timedelta is not under src.
The spec (4.2, 6) reads it as parsing an XML duration literal such as PT1H
into a duration, with an unparseable (in particular empty) literal yielding
no duration. Modelled for the PT followed by a number of hours, minutes or
seconds fragment of the grammar; every other string yields none. Result in
microseconds. -/
def parseDigits (cs : List Char) : Option Nat :=
  if cs.isEmpty then none
  else if cs.all Char.isDigit then
    some (cs.foldl (fun n c => n * 10 + (c.toNat - 48)) 0)
  else none

/-- Modelled from the spec: the duration literal grammar of
pyff.utils.duration2timedelta (see the previous comment), over the character
list of the string. -/
def duration2timedelta (period : String) : Option Int :=
  match period.data with
  | 'P' :: 'T' :: rest =>
    match rest.getLast? with
    | none => none
    | some u =>
      match parseDigits rest.dropLast with
      | none => none
      | some n =>
        if u = 'H' then some ((n : Int) * 3600 * 1000000)
        else if u = 'M' then some ((n : Int) * 60 * 1000000)
        else if u = 'S' then some ((n : Int) * 1000000)
        else none
  | _ => none

/-- iter_entities (samlmd.py lines 263-266) on an optional document: None
yields the empty list, otherwise the EntityDescriptor elements of the tree
in document order. -/
def iter_entities (t : Option SamlDoc) : List Entity :=
  match t with
  | none => []
  | some (.entity _ e) => [e]
  | some (.entities _ cs) => cs
  | some .other => []

/-- entities_list (samlmd.py lines 249-260). -/
def entities_list (t : Option SamlDoc) : List Entity :=
  match t with
  | none => []
  | some (.entity _ e) => [e]
  | some d => iter_entities (some d)

/-- An entity reference passed to entitiesdescriptor: either a direct element
(a member with a tag attribute) or a name resolved through lookup_fn. -/
inductive EntityRef where
  | direct (e : Entity)
  | group (name : String)
deriving DecidableEq, Repr

/-- copy.deepcopy: under value semantics a deep copy is the value itself. -/
def deepcopy (e : Entity) : Entity := e

/-- The body of the local _insert closure of entitiesdescriptor (samlmd.py
lines 207-216): state is the member list built so far and the seen keys. -/
def ed_insert (copy : Bool) (st : List Entity × List String) (ent : Entity) :
    List Entity × List String :=
  match ent.entityID with
  | none => st
  | some i =>
    if i ∈ st.2 then st
    else
      let ent_insert := if copy then deepcopy ent else ent
      (st.1 ++ [ent_insert], st.2 ++ [i])

/-- The member loop of entitiesdescriptor (lines 226-233): direct members are
inserted and counted once; group members are resolved through lookup_fn and
each resolved entity is inserted and counted. -/
def ed_loop (lookup : String → List Entity) (copy : Bool) :
    List EntityRef → (List Entity × List String) → Nat →
    (List Entity × List String) × Nat
  | [], st, n => (st, n)
  | .direct e :: rest, st, n =>
    ed_loop lookup copy rest (ed_insert copy st e) (n + 1)
  | .group g :: rest, st, n =>
    ed_loop lookup copy rest ((lookup g).foldl (ed_insert copy) st)
      (n + (lookup g).length)

/-- entitiesdescriptor (samlmd.py lines 194-246). `validDoc` abstracts
pyff.utils.validate_document as a predicate; a failing whole-document
validation raises MetadataException. Returns none when nent is zero. -/
def entitiesdescriptor (lookup : String → List Entity) (refs : List EntityRef)
    (name : Option String) (cache_duration valid_until : Option String)
    (validate : Bool) (copy : Bool) (validDoc : SamlDoc → Bool) :
    Except Err (Option SamlDoc) :=
  let attrs : EDAttrs :=
    { nameAttr := name, cacheDuration := cache_duration, validUntil := valid_until }
  let r := ed_loop lookup copy refs ([], []) 0
  if r.2 = 0 then Except.ok none
  else
    let t := SamlDoc.entities attrs r.1.1
    if validate then
      if validDoc t then Except.ok (some t)
      else Except.error (.metadataException "XML schema validation failed")
    else Except.ok (some t)

/-- Resolution of the reference list to the flat record stream the member
loop processes: a direct reference yields one record, a group yields whatever
lookup_fn returns. -/
def resolve (lookup : String → List Entity) : List EntityRef → List Entity
  | [] => []
  | .direct e :: rest => e :: resolve lookup rest
  | .group g :: rest => lookup g ++ resolve lookup rest

/-- First-occurrence selection: keeps, in order, each record that carries an
identifier not seen before (seen keys accumulate left to right). -/
def fbk : List Entity → List String → List Entity
  | [], _ => []
  | e :: rest, seen =>
    match e.entityID with
    | none => fbk rest seen
    | some i =>
      if i ∈ seen then fbk rest seen else e :: fbk rest (seen ++ [i])

/-- The keys newly recorded by first-occurrence selection. -/
def fbkKeys : List Entity → List String → List String
  | [], _ => []
  | e :: rest, seen =>
    match e.entityID with
    | none => fbkKeys rest seen
    | some i =>
      if i ∈ seen then fbkKeys rest seen else i :: fbkKeys rest (seen ++ [i])

/-- filter_invalids_from_document record loop (samlmd.py lines 182-190) over
the children of an EntitiesDescriptor root: every child has a parent, so a
failing child is excised and its diagnostic recorded under its entityID. -/
def filterLoop (xsd : Entity → Bool) (xmlerr : Entity → String) :
    List Entity → List (Option String × String) →
    List Entity × List (Option String × String)
  | [], ve => ([], ve)
  | e :: rest, ve =>
    if xsd e then
      let r := filterLoop xsd xmlerr rest ve
      (e :: r.1, r.2)
    else
      filterLoop xsd xmlerr rest (dictSet ve e.entityID (xmlerr e))

/-- filter_invalids_from_document (samlmd.py lines 180-191). `xsd` abstracts
per-record schema validation, `xmlerr` the diagnostic string. For a single
EntityDescriptor root the record is its own document: a failure is recorded
and, the record having no parent, the whole result is absent. -/
def filter_invalids_from_document (xsd : Entity → Bool)
    (xmlerr : Entity → String) (t : SamlDoc)
    (validation_errors : List (Option String × String)) :
    Option SamlDoc × List (Option String × String) :=
  match t with
  | .entities a es =>
    let r := filterLoop xsd xmlerr es validation_errors
    (some (SamlDoc.entities a r.1), r.2)
  | .entity a e =>
    if xsd e then (some (SamlDoc.entity a e), validation_errors)
    else (none, dictSet validation_errors e.entityID (xmlerr e))
  | .other => (some SamlDoc.other, validation_errors)

/-- The external collaborators of parse_saml_metadata, all living in
pyff.utils outside src: XML parsing with xinclude, signature checking,
whole-document validation, the per-record schema, the diagnostic formatter,
and the two time parsers. -/
structure Collab where
  parse : Except Err SamlDoc
  checkSig : SamlDoc → Except Err SamlDoc
  validDoc : SamlDoc → Bool
  xsd : Entity → Bool
  xmlerr : Entity → String
  iso2dt : String → Nat
  d2t : String → Option Int

/-- The ID-attribute strip of parse_saml_metadata (samlmd.py lines 94-96). -/
def strip_ids : SamlDoc → SamlDoc
  | .entity a e => .entity a { e with idAttr := none }
  | .entities a cs => .entities a (cs.map (fun e => { e with idAttr := none }))
  | .other => .other

/-- The try body of parse_saml_metadata (samlmd.py lines 85-112): parse and
xinclude, compute the expiration hint from the unmodified root, check the
signature, strip ID attributes, validate (filtering or whole-document), and
wrap a bare EntityDescriptor root through entitiesdescriptor with copy off
and validation on (the entitiesdescriptor defaults). -/
def parse_body (c : Collab) (cfg : Config) (now : Nat)
    (base_url : Option String) (filter_invalid validate : Bool)
    (validation_errors : List (Option String × String)) :
    Except Err (Option SamlDoc × Option Int) :=
  match c.parse with
  | .error er => .error er
  | .ok t0 =>
    let expire_time_offset := metadata_expiration c.iso2dt c.d2t cfg now t0
    match c.checkSig t0 with
    | .error er => .error er
    | .ok t1 =>
      let t2 := strip_ids t1
      let validated : Except Err (Option SamlDoc) :=
        if validate then
          if filter_invalid then
            .ok (filter_invalids_from_document c.xsd c.xmlerr t2
                  validation_errors).1
          else
            if c.validDoc t2 then .ok (some t2)
            else .error (.metadataException "schema validation failed")
        else .ok (some t2)
      match validated with
      | .error er => .error er
      | .ok tv =>
        match tv with
        | some (.entity _ e) =>
          match entitiesdescriptor (fun _ => []) [.direct e] base_url
              none none true false c.validDoc with
          | .error er => .error er
          | .ok t4 => .ok (t4, expire_time_offset)
        | _ => .ok (tv, expire_time_offset)

/-- parse_saml_metadata (samlmd.py lines 63-123): the try body wrapped in the
blanket except clause, which re-raises when fail_on_error and otherwise logs
and returns the absent pair. -/
def parse_saml_metadata (c : Collab) (cfg : Config) (now : Nat)
    (base_url : Option String) (fail_on_error filter_invalid validate : Bool)
    (validation_errors : List (Option String × String)) :
    Except Err (Option SamlDoc × Option Int) :=
  match parse_body c cfg now base_url filter_invalid validate
      validation_errors with
  | .error ex => if fail_on_error then .error ex else .ok (none, none)
  | .ok r => .ok r

/-- A generic XML element for the provenance mutators: tag, attributes,
children. -/
inductive XElem where
  | mk (tag : String) (attrs : List (String × String)) (children : List XElem)

/-- The element tag. -/
def XElem.tag : XElem → String
  | .mk t _ _ => t

/-- The element attributes. -/
def XElem.attrs : XElem → List (String × String)
  | .mk _ a _ => a

/-- The element children. -/
def XElem.children : XElem → List XElem
  | .mk _ _ c => c

/-- Tag of the md namespace EntitiesDescriptor element. -/
def TAG_ENTITIES : String := "md:EntitiesDescriptor"

/-- Tag of the md namespace Extensions element. -/
def TAG_EXT : String := "md:Extensions"

/-- Tag of the mdrpi namespace PublicationInfo element. -/
def TAG_PUBINFO : String := "mdrpi:PublicationInfo"

/-- lxml find with a direct-child path: the first child with the tag. -/
def findChild (tg : String) (e : XElem) : Option XElem :=
  e.children.find? (fun c => decide (c.tag = tg))

/-- lxml find with a descendant path, reduced to presence: whether some
strict descendant reachable through the listed elements has the tag. -/
def anyDesc (tg : String) : List XElem → Bool
  | [] => false
  | .mk t _ cs :: rest => decide (t = tg) || anyDesc tg cs || anyDesc tg rest

/-- Replace the first direct child carrying the tag. -/
def setFirstChild (tg : String) (newc : XElem) : List XElem → List XElem
  | [] => []
  | c :: rest =>
    if c.tag = tg then newc :: rest else c :: setFirstChild tg newc rest

/-- Element append (lxml append). -/
def XElem.appendChild (e : XElem) (c : XElem) : XElem :=
  .mk e.tag e.attrs (e.children ++ [c])

/-- The PublicationInfo element built by set_pubinfo: publisher attribute,
and the creationInstant attribute when the instant string is non-empty. -/
def piOf (pub : String) (ci : String) : XElem :=
  .mk TAG_PUBINFO
    (("publisher", pub) ::
      (if ci ≠ "" then [("creationInstant", ci)] else [])) []

/-- set_pubinfo (samlmd.py lines 659-677), with entity_extensions (lines
580-590) inlined: the target must be an EntitiesDescriptor, a publisher must
be given, the Extensions child is found or created at position zero, a
PublicationInfo already below it is an error, otherwise the new
PublicationInfo is appended to the Extensions element. `now_str` stands for
the strftime of utcnow taken when no creation instant is supplied. -/
def set_pubinfo (now_str : String) (e : XElem) (publisher : Option String)
    (creation_instant : Option String) : Except Err XElem :=
  if e.tag ≠ TAG_ENTITIES then
    .error (.metadataException
      "I can only set RegistrationAuthority to EntitiesDescriptor elements")
  else
    match publisher with
    | none => .error (.metadataException "At least publisher must be provided")
    | some pub =>
      let ci := creation_instant.getD now_str
      let pi := piOf pub ci
      match findChild TAG_EXT e with
      | some ext =>
        if anyDesc TAG_PUBINFO ext.children then
          .error (.metadataException
            "A PublicationInfo element is already present")
        else
          .ok (.mk e.tag e.attrs
            (setFirstChild TAG_EXT (ext.appendChild pi) e.children))
      | none =>
        let ext : XElem := .mk TAG_EXT [] [pi]
        .ok (.mk e.tag e.attrs (ext :: e.children))

/-! ### Lemmas about the dict model -/

theorem dict_any_iff {α β : Type} [DecidableEq α] (m : List (α × β)) (k : α) :
    m.any (fun p => decide (p.1 = k)) = true ↔ k ∈ m.map Prod.fst := by
  simp [List.any_eq_true, List.mem_map]

theorem dictGet_map_set {α β : Type} [DecidableEq α] (m : List (α × β))
    (k : α) (v : β) (h : m.any (fun p => decide (p.1 = k)) = true) :
    dictGet (m.map (fun p => if p.1 = k then (k, v) else p)) k = some v := by
  induction m with
  | nil => simp at h
  | cons p rest ih =>
    by_cases hp : p.1 = k
    · simp [dictGet, List.find?, hp]
    · have h' : rest.any (fun p => decide (p.1 = k)) = true := by
        simp [List.any_cons, hp] at h
        simp [List.any_eq_true]
        exact h
      have := ih h'
      simpa [dictGet, List.find?, hp] using this

theorem dictGet_append_fresh {α β : Type} [DecidableEq α] (m : List (α × β))
    (k : α) (v : β) (h : m.any (fun p => decide (p.1 = k)) = false) :
    dictGet (m ++ [(k, v)]) k = some v := by
  induction m with
  | nil => simp [dictGet, List.find?]
  | cons p rest ih =>
    have hp : ¬ p.1 = k := by
      intro hk
      simp [List.any_cons, hk] at h
    have h' : rest.any (fun p => decide (p.1 = k)) = false := by
      simp [List.any_cons] at h
      simp [List.any_eq_false]
      intro x hx
      exact h.2 x hx
    have := ih h'
    simpa [dictGet, List.find?, hp] using this

theorem dictGet_dictSet {α β : Type} [DecidableEq α] (m : List (α × β))
    (k : α) (v : β) : dictGet (dictSet m k v) k = some v := by
  unfold dictSet
  by_cases h : m.any (fun p => decide (p.1 = k)) = true
  · rw [if_pos h]
    exact dictGet_map_set m k v h
  · have hf : m.any (fun p => decide (p.1 = k)) = false := by
      revert h
      cases m.any (fun p => decide (p.1 = k)) <;> simp
    rw [if_neg h]
    exact dictGet_append_fresh m k v hf

theorem dictSet_fresh {α β : Type} [DecidableEq α] (m : List (α × β))
    (k : α) (v : β) (h : k ∉ m.map Prod.fst) :
    dictSet m k v = m ++ [(k, v)] := by
  unfold dictSet
  rw [if_neg]
  intro hc
  exact h ((dict_any_iff m k).mp hc)

theorem keys_map_set {α β : Type} [DecidableEq α] (m : List (α × β))
    (k : α) (v : β) :
    (m.map (fun p => if p.1 = k then (k, v) else p)).map Prod.fst
      = m.map Prod.fst := by
  induction m with
  | nil => simp
  | cons p rest ih =>
    by_cases hp : p.1 = k
    · simp [hp, ih]
    · simp [hp, ih]

theorem dictSet_keys_mem {α β : Type} [DecidableEq α] (m : List (α × β))
    (k : α) (v : β) (h : k ∈ m.map Prod.fst) :
    (dictSet m k v).map Prod.fst = m.map Prod.fst := by
  unfold dictSet
  rw [if_pos ((dict_any_iff m k).mpr h)]
  exact keys_map_set m k v

theorem dictSet_keys_nodup {α β : Type} [DecidableEq α] (m : List (α × β))
    (k : α) (v : β) (h : (m.map Prod.fst).Nodup) :
    ((dictSet m k v).map Prod.fst).Nodup := by
  by_cases hk : k ∈ m.map Prod.fst
  · rw [dictSet_keys_mem m k v hk]
    exact h
  · rw [dictSet_fresh m k v hk]
    rw [List.map_append]
    refine List.Nodup.append h (List.nodup_singleton k) ?_
    intro a ha hb
    simp at hb
    subst hb
    exact hk ha

/-! ### Lemmas about the merge engine -/

/-- Folding the insert closure over a flat record stream. -/
def insertAll (copy : Bool) (st : List Entity × List String)
    (es : List Entity) : List Entity × List String :=
  es.foldl (ed_insert copy) st

theorem ed_loop_eq (lookup : String → List Entity) (copy : Bool) :
    ∀ (refs : List EntityRef) (st : List Entity × List String) (n : Nat),
    ed_loop lookup copy refs st n =
      (insertAll copy st (resolve lookup refs),
       n + (resolve lookup refs).length) := by
  intro refs
  induction refs with
  | nil => intro st n; simp [ed_loop, resolve, insertAll]
  | cons r rest ih =>
    intro st n
    cases r with
    | direct e =>
      simp only [ed_loop, resolve, ih, insertAll, List.foldl_cons,
        List.length_cons, Prod.mk.injEq]
      exact ⟨trivial, by omega⟩
    | group g =>
      simp only [ed_loop, resolve, ih, insertAll, List.foldl_append,
        List.length_append, Prod.mk.injEq]
      exact ⟨trivial, by omega⟩

theorem insertAll_eq_fbk (copy : Bool) :
    ∀ (es : List Entity) (acc : List Entity) (seen : List String),
    insertAll copy (acc, seen) es =
      (acc ++ fbk es seen, seen ++ fbkKeys es seen) := by
  intro es
  induction es with
  | nil => intro acc seen; simp [insertAll, fbk, fbkKeys]
  | cons e rest ih =>
    intro acc seen
    simp only [insertAll, List.foldl_cons]
    cases he : e.entityID with
    | none =>
      have hstep : ed_insert copy (acc, seen) e = (acc, seen) := by
        simp [ed_insert, he]
      rw [hstep]
      have := ih acc seen
      simp only [insertAll] at this
      rw [this]
      simp [fbk, fbkKeys, he]
    | some i =>
      by_cases hi : i ∈ seen
      · have hstep : ed_insert copy (acc, seen) e = (acc, seen) := by
          simp [ed_insert, he, hi]
        rw [hstep]
        have := ih acc seen
        simp only [insertAll] at this
        rw [this]
        simp [fbk, fbkKeys, he, hi]
      · have hstep : ed_insert copy (acc, seen) e =
            (acc ++ [e], seen ++ [i]) := by
          simp [ed_insert, he, hi, deepcopy]
        rw [hstep]
        have := ih (acc ++ [e]) (seen ++ [i])
        simp only [insertAll] at this
        rw [this]
        simp [fbk, fbkKeys, he, hi]

theorem fbk_sublist : ∀ (es : List Entity) (seen : List String),
    (fbk es seen).Sublist es := by
  intro es
  induction es with
  | nil => intro seen; simp [fbk]
  | cons e rest ih =>
    intro seen
    cases he : e.entityID with
    | none =>
      simp only [fbk, he]
      exact (ih seen).cons e
    | some i =>
      by_cases hi : i ∈ seen
      · simp only [fbk, he, if_pos hi]
        exact (ih seen).cons e
      · simp only [fbk, he, if_neg hi]
        exact (ih (seen ++ [i])).cons₂ e

theorem fbk_filterMap_eq : ∀ (es : List Entity) (seen : List String),
    (fbk es seen).filterMap Entity.entityID = fbkKeys es seen := by
  intro es
  induction es with
  | nil => intro seen; simp [fbk, fbkKeys]
  | cons e rest ih =>
    intro seen
    cases he : e.entityID with
    | none => simp only [fbk, fbkKeys, he]; exact ih seen
    | some i =>
      by_cases hi : i ∈ seen
      · simp only [fbk, fbkKeys, he, if_pos hi]
        exact ih seen
      · simp only [fbk, fbkKeys, he, if_neg hi, List.filterMap_cons]
        rw [ih (seen ++ [i])]

theorem fbkKeys_nodup_fresh : ∀ (es : List Entity) (seen : List String),
    (fbkKeys es seen).Nodup ∧ ∀ i ∈ fbkKeys es seen, i ∉ seen := by
  intro es
  induction es with
  | nil => intro seen; simp [fbkKeys]
  | cons e rest ih =>
    intro seen
    cases he : e.entityID with
    | none => simpa only [fbkKeys, he] using ih seen
    | some i =>
      by_cases hi : i ∈ seen
      · simpa only [fbkKeys, he, if_pos hi] using ih seen
      · simp only [fbkKeys, he, if_neg hi]
        obtain ⟨hnd, hfresh⟩ := ih (seen ++ [i])
        constructor
        · refine List.Nodup.cons ?_ hnd
          intro hmem
          have := hfresh i hmem
          simp at this
        · intro j hj
          simp only [List.mem_cons] at hj
          cases hj with
          | inl hj => exact hj ▸ hi
          | inr hj =>
            have := hfresh j hj
            intro hjs
            exact this (by simp [hjs])

theorem fbk_covers : ∀ (es : List Entity) (seen : List String) (i : String),
    i ∉ seen → (∃ e ∈ es, e.entityID = some i) →
    ∃ e ∈ fbk es seen, e.entityID = some i := by
  intro es
  induction es with
  | nil => intro seen i _ h; simp at h
  | cons a rest ih =>
    intro seen i hi h
    obtain ⟨e, he, hid⟩ := h
    cases ha : a.entityID with
    | none =>
      simp only [fbk, ha]
      rcases List.mem_cons.mp he with rfl | hrest
      · rw [ha] at hid; exact absurd hid (by simp)
      · exact ih seen i hi ⟨e, hrest, hid⟩
    | some j =>
      by_cases hj : j ∈ seen
      · simp only [fbk, ha, if_pos hj]
        rcases List.mem_cons.mp he with rfl | hrest
        · rw [ha] at hid
          have : j = i := by injection hid
          exact absurd (this ▸ hj) hi
        · exact ih seen i hi ⟨e, hrest, hid⟩
      · simp only [fbk, ha, if_neg hj]
        by_cases hij : i = j
        · exact ⟨a, List.mem_cons_self a _, by rw [ha, hij]⟩
        · rcases List.mem_cons.mp he with rfl | hrest
          · rw [ha] at hid
            have : j = i := by injection hid
            exact absurd this.symm hij
          · have hi' : i ∉ seen ++ [j] := by
              simp [hi, hij]
            obtain ⟨e', he', hid'⟩ := ih (seen ++ [j]) i hi' ⟨e, hrest, hid⟩
            exact ⟨e', List.mem_cons_of_mem a he', hid'⟩

theorem fbk_first : ∀ (es : List Entity) (seen : List String) (e : Entity),
    e ∈ fbk es seen →
    ∃ i, e.entityID = some i ∧ i ∉ seen ∧
      es.find? (fun x => decide (x.entityID = some i)) = some e := by
  intro es
  induction es with
  | nil => intro seen e h; simp [fbk] at h
  | cons a rest ih =>
    intro seen e h
    cases ha : a.entityID with
    | none =>
      simp only [fbk, ha] at h
      obtain ⟨i, hid, hfresh, hfind⟩ := ih seen e h
      refine ⟨i, hid, hfresh, ?_⟩
      rw [List.find?_cons_of_neg, hfind]
      simp [ha]
    | some j =>
      by_cases hj : j ∈ seen
      · simp only [fbk, ha, if_pos hj] at h
        obtain ⟨i, hid, hfresh, hfind⟩ := ih seen e h
        refine ⟨i, hid, hfresh, ?_⟩
        rw [List.find?_cons_of_neg, hfind]
        simp only [ha, decide_eq_true_eq]
        intro hji
        have : j = i := by injection hji
        exact hfresh (this ▸ hj)
      · simp only [fbk, ha, if_neg hj] at h
        rcases List.mem_cons.mp h with rfl | htail
        · refine ⟨j, ha, hj, ?_⟩
          rw [List.find?_cons_of_pos]
          simp [ha]
        · obtain ⟨i, hid, hfresh, hfind⟩ := ih (seen ++ [j]) e htail
          have hij : i ≠ j := by
            intro hc
            exact hfresh (by simp [hc])
          have hiseen : i ∉ seen := by
            intro hc
            exact hfresh (by simp [hc])
          refine ⟨i, hid, hiseen, ?_⟩
          rw [List.find?_cons_of_neg, hfind]
          simp only [ha, decide_eq_true_eq]
          intro hji
          have : j = i := by injection hji
          exact hij this.symm

/-! ### Lemmas about the filter engine -/

theorem filterLoop_spec (xsd : Entity → Bool) (xmlerr : Entity → String) :
    ∀ (es : List Entity) (ve : List (Option String × String)),
    ((es.filter (fun e => !xsd e)).map Entity.entityID).Nodup →
    (∀ e ∈ es, xsd e = false → e.entityID ∉ ve.map Prod.fst) →
    filterLoop xsd xmlerr es ve =
      (es.filter (fun e => xsd e),
       ve ++ (es.filter (fun e => !xsd e)).map
         (fun e => (e.entityID, xmlerr e))) := by
  intro es
  induction es with
  | nil => intro ve _ _; simp [filterLoop]
  | cons e rest ih =>
    intro ve hnd hfresh
    by_cases hx : xsd e
    · have hnd' : ((rest.filter (fun e => !xsd e)).map Entity.entityID).Nodup := by
        simpa [List.filter_cons, hx] using hnd
      have hfresh' : ∀ a ∈ rest, xsd a = false → a.entityID ∉ ve.map Prod.fst :=
        fun a ha => hfresh a (List.mem_cons_of_mem e ha)
      simp only [filterLoop, if_pos hx, ih ve hnd' hfresh']
      simp [List.filter_cons, hx]
    · have hxf : xsd e = false := by
        revert hx
        cases xsd e <;> simp
      have hmem : e.entityID ∉ ve.map Prod.fst :=
        hfresh e (List.mem_cons_self e rest) hxf
      have hset : dictSet ve e.entityID (xmlerr e)
          = ve ++ [(e.entityID, xmlerr e)] :=
        dictSet_fresh ve e.entityID (xmlerr e) hmem
      have hnd' : ((rest.filter (fun e => !xsd e)).map Entity.entityID).Nodup := by
        simp only [List.filter_cons, hxf, Bool.not_false, if_pos] at hnd
        simp only [List.map_cons, List.nodup_cons] at hnd
        exact hnd.2
      have hid_ne : ∀ a ∈ rest, xsd a = false → a.entityID ≠ e.entityID := by
        intro a ha haf
        simp only [List.filter_cons, hxf, Bool.not_false, if_pos] at hnd
        simp only [List.map_cons, List.nodup_cons] at hnd
        intro hc
        exact hnd.1 (hc ▸ List.mem_map_of_mem Entity.entityID
          (List.mem_filter.mpr ⟨ha, by simp [haf]⟩))
      have hfresh' : ∀ a ∈ rest, xsd a = false →
          a.entityID ∉ (ve ++ [(e.entityID, xmlerr e)]).map Prod.fst := by
        intro a ha haf
        simp only [List.map_append, List.mem_append]
        intro hc
        cases hc with
        | inl hc => exact hfresh a (List.mem_cons_of_mem e ha) haf hc
        | inr hc =>
          simp at hc
          exact hid_ne a ha haf hc
      simp only [filterLoop, if_neg hx, hset, ih _ hnd' hfresh']
      simp [List.filter_cons, hxf, List.append_assoc]

/-! ### Lemmas about the element tree -/

theorem find_setFirstChild (cs : List XElem) (tg : String) (c newc : XElem)
    (h : cs.find? (fun x => decide (x.tag = tg)) = some c)
    (hn : newc.tag = tg) :
    (setFirstChild tg newc cs).find? (fun x => decide (x.tag = tg))
      = some newc := by
  induction cs with
  | nil => simp [List.find?] at h
  | cons a rest ih =>
    by_cases ha : a.tag = tg
    · simp only [setFirstChild, if_pos ha]
      rw [List.find?_cons_of_pos]
      simp [hn]
    · simp only [setFirstChild, if_neg ha]
      rw [List.find?_cons_of_neg _ (by simp [ha])]
      rw [List.find?_cons_of_neg _ (by simp [ha])] at h
      exact ih h

theorem anyDesc_append (tg : String) :
    ∀ (l1 l2 : List XElem),
    anyDesc tg (l1 ++ l2) = (anyDesc tg l1 || anyDesc tg l2) := by
  intro l1
  induction l1 with
  | nil => intro l2; simp [anyDesc]
  | cons c rest ih =>
    intro l2
    cases c with
    | mk t a cs =>
      simp only [List.cons_append, anyDesc, ih, Bool.or_assoc]

/-! ### Claim theorems -/

/-- C10: the entity enumeration operations are total on absent input:
entities_list of an absent document is the empty list and iter_entities of
an absent document yields no entities. -/
theorem enumeration_total_on_absent :
    entities_list none = [] ∧ iter_entities none = [] :=
  ⟨rfl, rfl⟩

/-- C6: when the root carries an absolute validUntil timestamp that parses
to now plus 3600 seconds, with the current time having a nonzero sub-second
component, metadata_expiration returns exactly 3600 seconds (both operands
truncated to whole seconds before subtraction). Times in microseconds. -/
theorem metadata_expiration_validUntil (iso2dt : String → Nat)
    (d2t : String → Option Int) (cfg : Config) (now : Nat) (t : SamlDoc)
    (a : EDAttrs) (s : String)
    (hroot : t.rootAttrs = some a) (hvu : a.validUntil = some s)
    (hparse : iso2dt s = now + 3600 * 1000000)
    (hsub : now % 1000000 ≠ 0) :
    metadata_expiration iso2dt d2t cfg now t = some (3600 * 1000000) := by
  simp only [metadata_expiration, hroot, hvu, hparse]
  have htr : truncSec (now + 3600 * 1000000) = truncSec now + 3600 * 1000000 := by
    unfold truncSec
    rw [Nat.add_mul_div_right now 3600 (by norm_num)]
    ring
  rw [htr]
  congr 1
  push_cast
  ring

/-- Witness for C6 at a concrete input: now is half a second past a whole
second and validUntil parses to exactly one hour later. -/
theorem metadata_expiration_validUntil_witness :
    metadata_expiration (fun _ => 1500000 + 3600 * 1000000) (fun _ => none)
      ⟨"PT1H", true⟩ 1500000
      (SamlDoc.entities ⟨none, none, some "vu"⟩ []) = some (3600 * 1000000) :=
  metadata_expiration_validUntil (fun _ => 1500000 + 3600 * 1000000)
    (fun _ => none) ⟨"PT1H", true⟩ 1500000
    (SamlDoc.entities ⟨none, none, some "vu"⟩ [])
    ⟨none, none, some "vu"⟩ "vu" rfl rfl rfl (by decide)

/-- C7 counterexample: with a present-but-empty cacheDuration attribute, no
validUntil, cache durations respected and a default of PT1H, the two
calculators disagree: metadata_expiration falls back to the default while
expiration passes the empty literal to the duration parser and gets
nothing. -/
theorem expiration_calculators_diverge :
    metadata_expiration (fun _ => 0) duration2timedelta ⟨"PT1H", true⟩ 0
        (SamlDoc.entities ⟨none, some "", none⟩ [])
      = some (3600 * 1000000) ∧
    expiration (fun _ => 0) duration2timedelta ⟨"PT1H", true⟩ 0
        (SamlDoc.entities ⟨none, some "", none⟩ [])
      = none ∧
    metadata_expiration (fun _ => 0) duration2timedelta ⟨"PT1H", true⟩ 0
        (SamlDoc.entities ⟨none, some "", none⟩ [])
      ≠ expiration (fun _ => 0) duration2timedelta ⟨"PT1H", true⟩ 0
        (SamlDoc.entities ⟨none, some "", none⟩ []) := by
  refine ⟨?_, ?_, ?_⟩
  · rfl
  · rfl
  · intro hc
    rw [show metadata_expiration (fun _ => 0) duration2timedelta ⟨"PT1H", true⟩
        0 (SamlDoc.entities ⟨none, some "", none⟩ [])
        = some (3600 * 1000000) from rfl] at hc
    rw [show expiration (fun _ => 0) duration2timedelta ⟨"PT1H", true⟩
        0 (SamlDoc.entities ⟨none, some "", none⟩ [])
        = none from rfl] at hc
    exact Option.noConfusion hc

/-- Helper: agreement of the two calculators on a recognized root with the
given attributes, provided cacheDuration is not present-but-empty. -/
theorem expiration_agree_attrs (iso2dt : String → Nat)
    (d2t : String → Option Int) (cfg : Config) (now : Nat) (a : EDAttrs)
    (h : a.cacheDuration ≠ some "") :
    metadata_expiration iso2dt d2t cfg now (SamlDoc.entities a [])
      = expiration iso2dt d2t cfg now (SamlDoc.entities a []) := by
  simp only [metadata_expiration, expiration, SamlDoc.rootAttrs]
  cases hvu : a.validUntil with
  | some s => rfl
  | none =>
    by_cases hr : cfg.respect_cache_duration
    · simp only [hr, if_true]
      cases hcd : a.cacheDuration with
      | none => simp
      | some c =>
        have hc : ¬ c = "" := by
          rw [hcd] at h
          simpa using h
        simp [hc]
    · simp [hr]

/-- C7 (amended): the two expiration calculators agree on every input whose
root does not carry a present-but-empty cacheDuration attribute; in that
remaining case metadata_expiration substitutes the configured default while
expiration does not. -/
theorem expiration_calculators_agree (iso2dt : String → Nat)
    (d2t : String → Option Int) (cfg : Config) (now : Nat) (t : SamlDoc)
    (h : t.rootAttrs.bind EDAttrs.cacheDuration ≠ some "") :
    metadata_expiration iso2dt d2t cfg now t
      = expiration iso2dt d2t cfg now t := by
  cases t with
  | other => rfl
  | entity a e =>
    have h' : a.cacheDuration ≠ some "" := by
      simpa [SamlDoc.rootAttrs] using h
    exact expiration_agree_attrs iso2dt d2t cfg now a h'
  | entities a cs =>
    have h' : a.cacheDuration ≠ some "" := by
      simpa [SamlDoc.rootAttrs] using h
    exact expiration_agree_attrs iso2dt d2t cfg now a h'

/-- Witness for C7 (amended) at a concrete input: a non-empty cacheDuration
of PT30M, on which both calculators return thirty minutes. -/
theorem expiration_calculators_agree_witness :
    metadata_expiration (fun _ => 0) duration2timedelta ⟨"PT1H", true⟩ 0
        (SamlDoc.entities ⟨none, some "PT30M", none⟩ [])
      = expiration (fun _ => 0) duration2timedelta ⟨"PT1H", true⟩ 0
        (SamlDoc.entities ⟨none, some "PT30M", none⟩ []) :=
  expiration_calculators_agree (fun _ => 0) duration2timedelta
    ⟨"PT1H", true⟩ 0 (SamlDoc.entities ⟨none, some "PT30M", none⟩ [])
    (by decide)

/-- C8 counterexample: adding a second record with an identifier already in
the EntitySet is not a no-op: the stored record is replaced by the later
one, so the set does not contain the same records as before. -/
theorem entityset_add_overwrites :
    EntitySet.add (EntitySet.add ([] : EntitySet) ⟨some "x", none, 1⟩)
        ⟨some "x", none, 2⟩
      = [(some "x", ⟨some "x", none, 2⟩)] ∧
    EntitySet.add (EntitySet.add ([] : EntitySet) ⟨some "x", none, 1⟩)
        ⟨some "x", none, 2⟩
      ≠ EntitySet.add ([] : EntitySet) ⟨some "x", none, 1⟩ := by
  constructor
  · rfl
  · intro hc
    have h2 := congrArg (fun l => dictGet l (some "x")) hc
    simp only [EntitySet.add] at h2
    rw [dictGet_dictSet, dictGet_dictSet] at h2
    exact absurd h2 (by decide)

/-- C8 (amended): adding a record whose identifier is already present keeps
the key set unchanged but replaces the stored record with the newly added
one (last insert wins, not a no-op); the set still never holds more than one
record per identifier (a nodup key list stays nodup). -/
theorem entityset_add_last_wins (s : EntitySet) (v : Entity) :
    (v.entityID ∈ s.map Prod.fst →
      (EntitySet.add s v).map Prod.fst = s.map Prod.fst) ∧
    dictGet (EntitySet.add s v) v.entityID = some v ∧
    ((s.map Prod.fst).Nodup → ((EntitySet.add s v).map Prod.fst).Nodup) := by
  refine ⟨?_, ?_, ?_⟩
  · intro h
    exact dictSet_keys_mem s v.entityID v h
  · exact dictGet_dictSet s v.entityID v
  · intro h
    exact dictSet_keys_nodup s v.entityID v h

/-- Witness for C8 (amended) at a concrete input: inserting a same-key
record into a one-element set keeps the key list and stores the new
record. -/
theorem entityset_add_last_wins_witness :
    (EntitySet.add [(some "x", ⟨some "x", none, 1⟩)] ⟨some "x", none, 2⟩).map
        Prod.fst
      = ([(some "x", (⟨some "x", none, 1⟩ : Entity))].map Prod.fst) ∧
    dictGet (EntitySet.add [(some "x", ⟨some "x", none, 1⟩)]
        ⟨some "x", none, 2⟩) (some "x")
      = some ⟨some "x", none, 2⟩ ∧
    ((EntitySet.add [(some "x", ⟨some "x", none, 1⟩)]
        ⟨some "x", none, 2⟩).map Prod.fst).Nodup := by
  obtain ⟨h1, h2, h3⟩ := entityset_add_last_wins
    [(some "x", ⟨some "x", none, 1⟩)] ⟨some "x", none, 2⟩
  exact ⟨h1 (by decide), h2, h3 (by decide)⟩

/-- C2 counterexample: a single direct reference to a record without an
entityID attribute resolves to one record, of which zero are accepted into
the aggregate, yet entitiesdescriptor returns a present-but-empty container
(with validation off) because the nent counter counts insertion attempts,
not accepted records. -/
theorem entitiesdescriptor_present_but_empty :
    entitiesdescriptor (fun _ => []) [EntityRef.direct ⟨none, none, 0⟩]
        none none none false true (fun _ => true)
      = Except.ok (some (SamlDoc.entities ⟨none, none, none⟩ [])) := rfl

/-- C2 (amended): entitiesdescriptor returns absent exactly when the input
references resolve to zero records (zero insertion attempts); in particular
an empty input list yields absent. A present-but-empty container can still
be returned when every resolved record lacks an identifier. -/
theorem entitiesdescriptor_absent_iff (lookup : String → List Entity)
    (refs : List EntityRef) (name cd vu : Option String)
    (validate copy : Bool) (validDoc : SamlDoc → Bool) :
    entitiesdescriptor lookup refs name cd vu validate copy validDoc
      = Except.ok none ↔ resolve lookup refs = [] := by
  simp only [entitiesdescriptor, ed_loop_eq, Nat.zero_add]
  constructor
  · intro hc
    by_contra hne
    have hlen : ¬ (resolve lookup refs).length = 0 := fun h0 =>
      hne (List.length_eq_zero.mp h0)
    rw [if_neg hlen] at hc
    split at hc
    · split at hc <;> simp at hc
    · simp at hc
  · intro hr
    rw [if_pos (by simp [hr])]

/-- C4: when the document consists of a single record that fails per-record
schema validation, the filter yields absent (no container) and the failure
is still recorded in the validation error map under the record identifier. -/
theorem filter_single_invalid (xsd : Entity → Bool) (xmlerr : Entity → String)
    (a : EDAttrs) (e : Entity) (ve : List (Option String × String))
    (h : xsd e = false) :
    (filter_invalids_from_document xsd xmlerr (SamlDoc.entity a e) ve).1
      = none ∧
    dictGet (filter_invalids_from_document xsd xmlerr
        (SamlDoc.entity a e) ve).2 e.entityID
      = some (xmlerr e) := by
  simp only [filter_invalids_from_document, h, Bool.false_eq_true, if_false]
  exact ⟨trivial, dictGet_dictSet ve e.entityID (xmlerr e)⟩

/-- Witness for C4 at a concrete input: a one-record document failing
validation yields absent and a one-entry error map. -/
theorem filter_single_invalid_witness :
    (filter_invalids_from_document (fun _ => false) (fun _ => "bad")
      (SamlDoc.entity ⟨none, none, none⟩ ⟨some "x", none, 0⟩) []).1
      = none ∧
    dictGet (filter_invalids_from_document (fun _ => false) (fun _ => "bad")
      (SamlDoc.entity ⟨none, none, none⟩ ⟨some "x", none, 0⟩) []).2
      (some "x")
      = some "bad" :=
  filter_single_invalid (fun _ => false) (fun _ => "bad")
    ⟨none, none, none⟩ ⟨some "x", none, 0⟩ [] rfl

/-- C3 counterexample: a container of two failing records that share an
identifier loses both records but the validation error map gains only one
entry (the second diagnostic overwrites the first under the shared key), so
the map does not hold exactly one entry per failing record. -/
theorem filter_duplicate_id_entries :
    filter_invalids_from_document (fun _ => false) (fun _ => "bad")
        (SamlDoc.entities ⟨none, none, none⟩
          [⟨some "x", none, 1⟩, ⟨some "x", none, 2⟩]) []
      = (some (SamlDoc.entities ⟨none, none, none⟩ []),
         [(some "x", "bad")]) := rfl

/-- C3 (amended): for a container document whose failing records carry
pairwise distinct identifiers, filtering removes exactly the failing
records, keeps the passing ones in place and in order, and the error map is
exactly one entry per failing record keyed by its identifier (in general
the map holds one entry per distinct failing identifier). -/
theorem filter_container_removes_invalid (xsd : Entity → Bool)
    (xmlerr : Entity → String) (a : EDAttrs) (es : List Entity)
    (hnd : ((es.filter (fun e => !xsd e)).map Entity.entityID).Nodup) :
    filter_invalids_from_document xsd xmlerr (SamlDoc.entities a es) []
      = (some (SamlDoc.entities a (es.filter (fun e => xsd e))),
         (es.filter (fun e => !xsd e)).map
           (fun e => (e.entityID, xmlerr e))) ∧
    ((filter_invalids_from_document xsd xmlerr
        (SamlDoc.entities a es) []).2).length
      = (es.filter (fun e => !xsd e)).length := by
  have h := filterLoop_spec xsd xmlerr es [] hnd (by simp)
  constructor
  · simp only [filter_invalids_from_document, h, List.nil_append]
  · simp only [filter_invalids_from_document, h, List.nil_append,
      List.length_map]

/-- Witness for C3 (amended) at a concrete input: three records of which
exactly one fails validation yield a two-record container and a one-entry
error map keyed by the failing identifier. -/
theorem filter_container_removes_invalid_witness :
    filter_invalids_from_document (fun e => decide (e.payload = 0))
        (fun _ => "bad")
        (SamlDoc.entities ⟨none, none, none⟩
          [⟨some "a", none, 0⟩, ⟨some "b", none, 1⟩, ⟨some "c", none, 0⟩]) []
      = (some (SamlDoc.entities ⟨none, none, none⟩
          [⟨some "a", none, 0⟩, ⟨some "c", none, 0⟩]),
         [(some "b", "bad")]) ∧
    ((filter_invalids_from_document (fun e => decide (e.payload = 0))
        (fun _ => "bad")
        (SamlDoc.entities ⟨none, none, none⟩
          [⟨some "a", none, 0⟩, ⟨some "b", none, 1⟩, ⟨some "c", none, 0⟩])
        []).2).length = 1 := by
  obtain ⟨h1, h2⟩ := filter_container_removes_invalid
    (fun e => decide (e.payload = 0)) (fun _ => "bad") ⟨none, none, none⟩
    [⟨some "a", none, 0⟩, ⟨some "b", none, 1⟩, ⟨some "c", none, 0⟩]
    (by decide)
  exact ⟨h1.trans (by decide), h2.trans (by decide)⟩

/-- C5: for every exception raised inside the body of parse_saml_metadata,
the call re-raises it when fail_on_error is set and otherwise swallows it
and returns the pair of absent document and absent expiration hint; a body
that does not raise is passed through unchanged for either flag value. -/
theorem parse_saml_metadata_error_policy (c : Collab) (cfg : Config)
    (now : Nat) (base_url : Option String) (filter_invalid validate : Bool)
    (ve : List (Option String × String)) :
    (∀ er, parse_body c cfg now base_url filter_invalid validate ve
        = Except.error er →
      parse_saml_metadata c cfg now base_url true filter_invalid validate ve
        = Except.error er ∧
      parse_saml_metadata c cfg now base_url false filter_invalid validate ve
        = Except.ok (none, none)) ∧
    (∀ r, parse_body c cfg now base_url filter_invalid validate ve
        = Except.ok r →
      ∀ fail_on_error,
        parse_saml_metadata c cfg now base_url fail_on_error filter_invalid
          validate ve = Except.ok r) := by
  constructor
  · intro er h
    constructor <;> simp [parse_saml_metadata, h]
  · intro r h fail_on_error
    simp [parse_saml_metadata, h]

/-- Witness for C5 at a concrete input: a source whose parse step raises;
with fail_on_error the exception propagates, without it the call returns
the absent pair. -/
theorem parse_saml_metadata_error_policy_witness :
    parse_saml_metadata
        ⟨Except.error (Err.otherError "boom"), fun t => Except.ok t,
          fun _ => true, fun _ => true, fun _ => "", fun _ => 0,
          fun _ => none⟩
        ⟨"PT1H", true⟩ 0 none true true true []
      = Except.error (Err.otherError "boom") ∧
    parse_saml_metadata
        ⟨Except.error (Err.otherError "boom"), fun t => Except.ok t,
          fun _ => true, fun _ => true, fun _ => "", fun _ => 0,
          fun _ => none⟩
        ⟨"PT1H", true⟩ 0 none false true true []
      = Except.ok (none, none) :=
  (parse_saml_metadata_error_policy
    ⟨Except.error (Err.otherError "boom"), fun t => Except.ok t,
      fun _ => true, fun _ => true, fun _ => "", fun _ => 0,
      fun _ => none⟩
    ⟨"PT1H", true⟩ 0 none true true []).1 (Err.otherError "boom") rfl

/-- C1: whenever entitiesdescriptor returns a container, its members are the
first-occurrence selection of the resolved record stream: the members carry
pairwise distinct identifiers, appear as a subsequence of the resolved
stream (first-occurrence order), every identifier occurring in the stream is
represented, and each member is the first resolved record carrying its
identifier -- regardless of whether it arrived directly or through a group
lookup. -/
theorem entitiesdescriptor_first_seen (lookup : String → List Entity)
    (refs : List EntityRef) (name cd vu : Option String)
    (validate copy : Bool) (validDoc : SamlDoc → Bool) (t : SamlDoc)
    (h : entitiesdescriptor lookup refs name cd vu validate copy validDoc
      = Except.ok (some t)) :
    t = SamlDoc.entities ⟨name, cd, vu⟩ (fbk (resolve lookup refs) []) ∧
    (fbk (resolve lookup refs) []).Sublist (resolve lookup refs) ∧
    ((fbk (resolve lookup refs) []).filterMap Entity.entityID).Nodup ∧
    (∀ i : String, (∃ e ∈ resolve lookup refs, e.entityID = some i) ↔
      ∃ e ∈ fbk (resolve lookup refs) [], e.entityID = some i) ∧
    (∀ e ∈ fbk (resolve lookup refs) [],
      ∃ i, e.entityID = some i ∧
        (resolve lookup refs).find? (fun x => decide (x.entityID = some i))
          = some e) := by
  have hmembers : (insertAll copy ([], []) (resolve lookup refs)).1
      = fbk (resolve lookup refs) [] := by
    rw [insertAll_eq_fbk]
    simp
  have ht : t = SamlDoc.entities ⟨name, cd, vu⟩
      (fbk (resolve lookup refs) []) := by
    simp only [entitiesdescriptor, ed_loop_eq, Nat.zero_add, hmembers] at h
    split at h
    · simp at h
    · split at h
      · split at h
        · simp only [Except.ok.injEq, Option.some.injEq] at h
          exact h.symm
        · simp at h
      · simp only [Except.ok.injEq, Option.some.injEq] at h
        exact h.symm
  refine ⟨ht, fbk_sublist _ _, ?_, ?_, ?_⟩
  · rw [fbk_filterMap_eq]
    exact (fbkKeys_nodup_fresh (resolve lookup refs) []).1
  · intro i
    constructor
    · intro hex
      exact fbk_covers (resolve lookup refs) [] i (by simp) hex
    · rintro ⟨e, he, hid⟩
      exact ⟨e, (fbk_sublist _ _).subset he, hid⟩
  · intro e he
    obtain ⟨i, hid, _, hfind⟩ := fbk_first (resolve lookup refs) [] e he
    exact ⟨i, hid, hfind⟩

/-- Witness for C1 at a concrete input: a direct record and a group record
sharing the identifier a; the container keeps only the first. -/
theorem entitiesdescriptor_first_seen_witness :
    SamlDoc.entities ⟨none, none, none⟩ [⟨some "a", none, 1⟩]
      = SamlDoc.entities ⟨none, none, none⟩
        (fbk (resolve (fun _ => [⟨some "a", none, 9⟩])
          [EntityRef.direct ⟨some "a", none, 1⟩, EntityRef.group "g"]) []) :=
  (entitiesdescriptor_first_seen (fun _ => [⟨some "a", none, 9⟩])
    [EntityRef.direct ⟨some "a", none, 1⟩, EntityRef.group "g"]
    none none none false true (fun _ => true)
    (SamlDoc.entities ⟨none, none, none⟩ [⟨some "a", none, 1⟩])
    rfl).1

/-- Helper for C9: on an EntitiesDescriptor whose first Extensions child
already holds a PublicationInfo descendant, set_pubinfo fails with the
already-present error. -/
theorem set_pubinfo_already_present (now2 : String) (e1 : XElem)
    (pub2 : String) (ci2 : Option String)
    (htag : e1.tag = TAG_ENTITIES) (ext1 : XElem)
    (hf : findChild TAG_EXT e1 = some ext1)
    (hd : anyDesc TAG_PUBINFO ext1.children = true) :
    set_pubinfo now2 e1 (some pub2) ci2
      = Except.error (.metadataException
          "A PublicationInfo element is already present") := by
  simp [set_pubinfo, htag, hf, hd]

/-- C9: on an aggregate-shaped target whose extensions hold no publication
info yet, set_pubinfo with a publisher succeeds and attaches a
PublicationInfo element below the Extensions child; any second call on the
result fails with the already-present error rather than overwriting or
duplicating it. -/
theorem set_pubinfo_one_shot (now1 : String) (e : XElem) (pub : String)
    (ci : Option String) (htag : e.tag = TAG_ENTITIES)
    (hnopi : ∀ ext, findChild TAG_EXT e = some ext →
      anyDesc TAG_PUBINFO ext.children = false) :
    ∃ e1, set_pubinfo now1 e (some pub) ci = Except.ok e1 ∧
      (∃ ext1, findChild TAG_EXT e1 = some ext1 ∧
        anyDesc TAG_PUBINFO ext1.children = true) ∧
      ∀ now2 pub2 ci2, set_pubinfo now2 e1 (some pub2) ci2
        = Except.error (.metadataException
            "A PublicationInfo element is already present") := by
  have main : ∃ e1, set_pubinfo now1 e (some pub) ci = Except.ok e1 ∧
      e1.tag = TAG_ENTITIES ∧
      ∃ ext1, findChild TAG_EXT e1 = some ext1 ∧
        anyDesc TAG_PUBINFO ext1.children = true := by
    cases hf : findChild TAG_EXT e with
    | none =>
      refine ⟨XElem.mk e.tag e.attrs
          (XElem.mk TAG_EXT [] [piOf pub (ci.getD now1)] :: e.children),
        ?_, ?_, ?_⟩
      · simp [set_pubinfo, htag, hf]
      · exact htag
      · refine ⟨XElem.mk TAG_EXT [] [piOf pub (ci.getD now1)], ?_, ?_⟩
        · show (XElem.mk TAG_EXT [] [piOf pub (ci.getD now1)]
              :: e.children).find? (fun c => decide (c.tag = TAG_EXT))
            = some (XElem.mk TAG_EXT [] [piOf pub (ci.getD now1)])
          exact List.find?_cons_of_pos _ (by simp [XElem.tag])
        · simp [XElem.children, anyDesc, piOf]
    | some ext =>
      have hno := hnopi ext hf
      have hf' : e.children.find? (fun c => decide (c.tag = TAG_EXT))
          = some ext := hf
      have hexttag : ext.tag = TAG_EXT := by
        have hp := List.find?_some hf'
        simpa using hp
      refine ⟨XElem.mk e.tag e.attrs
          (setFirstChild TAG_EXT
            (ext.appendChild (piOf pub (ci.getD now1))) e.children),
        ?_, ?_, ?_⟩
      · simp [set_pubinfo, htag, hf, hno]
      · exact htag
      · refine ⟨ext.appendChild (piOf pub (ci.getD now1)), ?_, ?_⟩
        · exact find_setFirstChild e.children TAG_EXT ext
            (ext.appendChild (piOf pub (ci.getD now1))) hf'
            (by cases ext with
              | mk t a cs => simpa [XElem.appendChild, XElem.tag] using hexttag)
        · show anyDesc TAG_PUBINFO
              (ext.children ++ [piOf pub (ci.getD now1)]) = true
          rw [anyDesc_append]
          simp [hno, anyDesc, piOf]
  obtain ⟨e1, hres, htag1, ext1, hfind1, hany1⟩ := main
  exact ⟨e1, hres, ⟨ext1, hfind1, hany1⟩,
    fun now2 pub2 ci2 => set_pubinfo_already_present now2 e1 pub2 ci2
      htag1 ext1 hfind1 hany1⟩

/-- Witness for C9 at a concrete input: a bare EntitiesDescriptor element;
the first call attaches the publication info and the second call fails. -/
theorem set_pubinfo_one_shot_witness :
    ∃ e1, set_pubinfo "2024-01-01T00:00:00Z" (XElem.mk TAG_ENTITIES [] [])
        (some "pub") none = Except.ok e1 ∧
      (∃ ext1, findChild TAG_EXT e1 = some ext1 ∧
        anyDesc TAG_PUBINFO ext1.children = true) ∧
      ∀ now2 pub2 ci2, set_pubinfo now2 e1 (some pub2) ci2
        = Except.error (Err.metadataException
            "A PublicationInfo element is already present") :=
  set_pubinfo_one_shot "2024-01-01T00:00:00Z" (XElem.mk TAG_ENTITIES [] [])
    "pub" none rfl (fun _ h => nomatch h)

/-- Witness for C2 (amended) at a concrete input: an empty reference list
resolves to no records and the merge returns absent. -/
theorem entitiesdescriptor_absent_iff_witness :
    entitiesdescriptor (fun _ => []) [] none none none true true
        (fun _ => true)
      = Except.ok none :=
  (entitiesdescriptor_absent_iff (fun _ => []) [] none none none true true
    (fun _ => true)).mpr rfl
